import Mathlib

/-!
Verification of the 2D line-segment algebra kernel
(`geometry/src/basic/line_segment.rs`, type `LineSegmentF`).

Coordinates are modelled as exact rationals (`ℚ`): the source works on IEEE-754
`f32` lanes, and we idealize the finite arithmetic as exact while keeping the
structure of each operation (lane shuffles, concatenations, broadcast
arithmetic) exactly as in the source.  Where a claim is specifically about the
IEEE special values produced by division by zero, a dedicated value type
`FVal` with IEEE-754 division semantics is used.
-/

/-- The 4-lane vector underlying `LineSegmentF` (`pathfinder_simd::F32x4`),
with lanes `x, y, z, w`. -/
structure F32x4 where
  x : ℚ
  y : ℚ
  z : ℚ
  w : ℚ
deriving DecidableEq, Repr

namespace F32x4

/-- Lane shuffle `zwxy`: swaps the low and high pairs. -/
def zwxy (v : F32x4) : F32x4 := ⟨v.z, v.w, v.x, v.y⟩

/-- Lane shuffle `xyxy`: broadcasts the low pair. -/
def xyxy (v : F32x4) : F32x4 := ⟨v.x, v.y, v.x, v.y⟩

/-- Lane shuffle `zwzw`: broadcasts the high pair. -/
def zwzw (v : F32x4) : F32x4 := ⟨v.z, v.w, v.z, v.w⟩

/-- `concat_xy_xy a b`: low pair of `a` followed by low pair of `b`. -/
def concat_xy_xy (a b : F32x4) : F32x4 := ⟨a.x, a.y, b.x, b.y⟩

/-- `concat_xy_zw a b`: low pair of `a` followed by high pair of `b`. -/
def concat_xy_zw (a b : F32x4) : F32x4 := ⟨a.x, a.y, b.z, b.w⟩

/-- `F32x4::splat`: all four lanes equal. -/
def splat (t : ℚ) : F32x4 := ⟨t, t, t, t⟩

/-- Lane-wise addition. -/
def add (a b : F32x4) : F32x4 := ⟨a.x + b.x, a.y + b.y, a.z + b.z, a.w + b.w⟩

/-- Lane-wise subtraction. -/
def sub (a b : F32x4) : F32x4 := ⟨a.x - b.x, a.y - b.y, a.z - b.z, a.w - b.w⟩

/-- Lane-wise multiplication. -/
def mul (a b : F32x4) : F32x4 := ⟨a.x * b.x, a.y * b.y, a.z * b.z, a.w * b.w⟩

instance : Add F32x4 := ⟨add⟩

instance : Sub F32x4 := ⟨sub⟩

instance : Mul F32x4 := ⟨mul⟩

/-- `F32x4::cross`: 3D cross product of the `xyz` lanes, `w` lane zero. -/
def cross (a b : F32x4) : F32x4 :=
  ⟨a.y * b.z - a.z * b.y, a.z * b.x - a.x * b.z, a.x * b.y - a.y * b.x, 0⟩

end F32x4

/-- `Point2DF` (external to `src/`): a packed 2D point.  Only the two
coordinate lanes are observable, so it is modelled as a pair. -/
structure Point2DF where
  x : ℚ
  y : ℚ
deriving DecidableEq, Repr

namespace Point2DF

/-- `Point2DF::new`. -/
def new (x y : ℚ) : Point2DF := ⟨x, y⟩

/-- Modelled from the spec: `Point2DF` subtraction (component-wise), required
at the §6 boundary (`+`/`-` on points); `point.rs` is not under `src/`. -/
def sub (a b : Point2DF) : Point2DF := ⟨a.x - b.x, a.y - b.y⟩

/-- Modelled from the spec: `Point2DF` addition (component-wise), required at
the §6 boundary; `point.rs` is not under `src/`. -/
def add (a b : Point2DF) : Point2DF := ⟨a.x + b.x, a.y + b.y⟩

/-- Modelled from the spec: `Point2DF` negation, required at the §6 boundary
(used for `-p0p1` in `intersection_t`). -/
def neg (a : Point2DF) : Point2DF := ⟨-a.x, -a.y⟩

/-- Modelled from the spec: `Point2DF::scale`, uniform scalar scale (§6). -/
def scale (a : Point2DF) (t : ℚ) : Point2DF := ⟨a.x * t, a.y * t⟩

/-- Modelled from the spec: `Point2DF::scale_xy`, per-axis scale (§4.7). -/
def scale_xy (a f : Point2DF) : Point2DF := ⟨a.x * f.x, a.y * f.y⟩

/-- Modelled from the spec: `Point2DF::yx`, component swap (§6). -/
def yx (a : Point2DF) : Point2DF := ⟨a.y, a.x⟩

/-- Modelled from the spec: `Point2DF::is_zero`, the exact zero test ("no
epsilon", spec §3). -/
def is_zero (a : Point2DF) : Bool := a.x == 0 && a.y == 0

instance : Add Point2DF := ⟨add⟩

instance : Sub Point2DF := ⟨sub⟩

instance : Neg Point2DF := ⟨neg⟩

end Point2DF

/-- Modelled from the spec: `Matrix2x2F` (external to `src/`, §6 boundary):
a 2×2 matrix stored as an `F32x4` of two packed column vectors
`(m00, m10, m01, m11)`. -/
structure Matrix2x2F where
  v : F32x4
deriving DecidableEq, Repr

namespace Matrix2x2F

/-- Modelled from the spec: determinant of the column-major 2×2 matrix. -/
def det (m : Matrix2x2F) : ℚ := m.v.x * m.v.w - m.v.z * m.v.y

/-- Modelled from the spec: matrix inverse, adjugate over determinant, stored
column-major. -/
def inverse (m : Matrix2x2F) : Matrix2x2F :=
  ⟨⟨m.v.w / m.det, -m.v.y / m.det, -m.v.z / m.det, m.v.x / m.det⟩⟩

/-- Modelled from the spec: apply the column-major 2×2 matrix to a point. -/
def transform_point (m : Matrix2x2F) (p : Point2DF) : Point2DF :=
  ⟨m.v.x * p.x + m.v.z * p.y, m.v.y * p.x + m.v.w * p.y⟩

end Matrix2x2F

/-- `LineSegmentF`: a directed segment packed as four lanes
`(from.x, from.y, to.x, to.y)`. -/
structure LineSegmentF where
  v : F32x4
deriving DecidableEq, Repr

namespace LineSegmentF

/-- `LineSegmentF::new(from, to)`. -/
def new (p q : Point2DF) : LineSegmentF := ⟨⟨p.x, p.y, q.x, q.y⟩⟩

/-- `LineSegmentF::from()`: the `from` endpoint (low lanes). -/
def fromPt (s : LineSegmentF) : Point2DF := ⟨s.v.x, s.v.y⟩

/-- `LineSegmentF::to()`: the `to` endpoint (high lanes, via `zwxy`). -/
def toPt (s : LineSegmentF) : Point2DF := ⟨s.v.zwxy.x, s.v.zwxy.y⟩

/-- `LineSegmentF::set_from`: `self.0 = point.0.concat_xy_zw(self.0)`. -/
def set_from (s : LineSegmentF) (p : Point2DF) : LineSegmentF :=
  ⟨F32x4.concat_xy_zw ⟨p.x, p.y, 0, 0⟩ s.v⟩

/-- `LineSegmentF::set_to`: `self.0 = self.0.concat_xy_xy(point.0)`. -/
def set_to (s : LineSegmentF) (p : Point2DF) : LineSegmentF :=
  ⟨F32x4.concat_xy_xy s.v ⟨p.x, p.y, 0, 0⟩⟩

/-- `LineSegmentF::from_x`: lane 0. -/
def from_x (s : LineSegmentF) : ℚ := s.v.x

/-- `LineSegmentF::from_y`: lane 1. -/
def from_y (s : LineSegmentF) : ℚ := s.v.y

/-- `LineSegmentF::to_x`: lane 2. -/
def to_x (s : LineSegmentF) : ℚ := s.v.z

/-- `LineSegmentF::to_y`: lane 3. -/
def to_y (s : LineSegmentF) : ℚ := s.v.w

/-- `LineSegmentF::set_from_x`: writes lane 0. -/
def set_from_x (s : LineSegmentF) (x : ℚ) : LineSegmentF :=
  ⟨⟨x, s.v.y, s.v.z, s.v.w⟩⟩

/-- `LineSegmentF::set_from_y`: writes lane 1. -/
def set_from_y (s : LineSegmentF) (y : ℚ) : LineSegmentF :=
  ⟨⟨s.v.x, y, s.v.z, s.v.w⟩⟩

/-- `LineSegmentF::set_to_x`: writes lane 2. -/
def set_to_x (s : LineSegmentF) (x : ℚ) : LineSegmentF :=
  ⟨⟨s.v.x, s.v.y, x, s.v.w⟩⟩

/-- `LineSegmentF::set_to_y`: writes lane 3. -/
def set_to_y (s : LineSegmentF) (y : ℚ) : LineSegmentF :=
  ⟨⟨s.v.x, s.v.y, s.v.z, y⟩⟩

/-- `LineSegmentF::split(t)`: lerp both halves via lane arithmetic, exactly as
in the source (`from_from + d_d * splat t`, then two `concat_xy_xy`). -/
def split (s : LineSegmentF) (t : ℚ) : LineSegmentF × LineSegmentF :=
  let from_from := s.v.xyxy
  let to_to := s.v.zwzw
  let d_d := to_to - from_from
  let mid_mid := from_from + d_d * F32x4.splat t
  (⟨from_from.concat_xy_xy mid_mid⟩, ⟨mid_mid.concat_xy_xy to_to⟩)

/-- `LineSegmentF::solve_t_for_x`: `(x - from_x) / (to_x - from_x)`, no
guard on the divisor (rational division totalizes `_/0` as `0`). -/
def solve_t_for_x (s : LineSegmentF) (x : ℚ) : ℚ :=
  (x - s.from_x) / (s.to_x - s.from_x)

/-- `LineSegmentF::solve_t_for_y`: `(y - from_y) / (to_y - from_y)`. -/
def solve_t_for_y (s : LineSegmentF) (y : ℚ) : ℚ :=
  (y - s.from_y) / (s.to_y - s.from_y)

/-- `LineSegmentF::split_at_x`: split and order the pieces by
`min_part.from_x() < max_part.from_x()`. -/
def split_at_x (s : LineSegmentF) (x : ℚ) : LineSegmentF × LineSegmentF :=
  let mm := s.split (s.solve_t_for_x x)
  if mm.1.from_x < mm.2.from_x then (mm.1, mm.2) else (mm.2, mm.1)

/-- `LineSegmentF::split_at_y`: split and order the pieces by
`min_part.from_y() < max_part.to_y()`. -/
def split_at_y (s : LineSegmentF) (y : ℚ) : LineSegmentF × LineSegmentF :=
  let mm := s.split (s.solve_t_for_y y)
  if mm.1.from_y < mm.2.to_y then (mm.1, mm.2) else (mm.2, mm.1)

/-- `LineSegmentF::reversed`: lane shuffle `zwxy`, swapping the endpoints. -/
def reversed (s : LineSegmentF) : LineSegmentF := ⟨s.v.zwxy⟩

/-- `LineSegmentF::upper_point`. -/
def upper_point (s : LineSegmentF) : Point2DF :=
  if s.from_y < s.to_y then s.fromPt else s.toPt

/-- `LineSegmentF::min_x`. -/
def min_x (s : LineSegmentF) : ℚ := min s.from_x s.to_x

/-- `LineSegmentF::max_x`. -/
def max_x (s : LineSegmentF) : ℚ := max s.from_x s.to_x

/-- `LineSegmentF::min_y`. -/
def min_y (s : LineSegmentF) : ℚ := min s.from_y s.to_y

/-- `LineSegmentF::max_y`. -/
def max_y (s : LineSegmentF) : ℚ := max s.from_y s.to_y

/-- `LineSegmentF::y_winding`: `1` if `from_y < to_y` else `-1`. -/
def y_winding (s : LineSegmentF) : ℤ :=
  if s.from_y < s.to_y then 1 else -1

/-- `LineSegmentF::orient`. -/
def orient (s : LineSegmentF) (w : ℤ) : LineSegmentF :=
  if 0 ≤ w then s else s.reversed

/-- `LineSegmentF::square_length`. -/
def square_length (s : LineSegmentF) : ℚ :=
  let dx := s.to_x - s.from_x
  let dy := s.to_y - s.from_y
  dx * dx + dy * dy

/-- `LineSegmentF::line_coords`: cross product of the endpoints lifted to
homogeneous coordinates. -/
def line_coords (s : LineSegmentF) : F32x4 :=
  F32x4.cross ⟨s.v.x, s.v.y, 1, 0⟩ ⟨s.v.z, s.v.w, 1, 0⟩

/-- `LineSegmentF::vector`: `to() - from()`. -/
def vector (s : LineSegmentF) : Point2DF := s.toPt - s.fromPt

/-- The 2×2 matrix built inside `intersection_t`: columns `other.vector()`
and `-self.vector()` packed into one `F32x4`. -/
def intersectionMatrix (s o : LineSegmentF) : Matrix2x2F :=
  ⟨F32x4.concat_xy_xy ⟨o.vector.x, o.vector.y, 0, 0⟩
    ⟨(-s.vector).x, (-s.vector).y, 0, 0⟩⟩

/-- `LineSegmentF::intersection_t`: `None` when `|det| < 0.0001`, otherwise
the `y`-component of the inverse matrix applied to `from() - other.from()`. -/
def intersection_t (s o : LineSegmentF) : Option ℚ :=
  let matrix := intersectionMatrix s o
  if |matrix.det| < 1 / 10000 then none
  else some ((matrix.inverse.transform_point (s.fromPt - o.fromPt)).y)

/-- `LineSegmentF::sample(t)`: `from() + vector().scale(t)`. -/
def sample (s : LineSegmentF) (t : ℚ) : Point2DF :=
  s.fromPt + s.vector.scale t

/-- `LineSegmentF::midpoint`. -/
def midpoint (s : LineSegmentF) : Point2DF := s.sample (1 / 2)

/-- `LineSegmentF::is_zero_length`: `vector().is_zero()`. -/
def is_zero_length (s : LineSegmentF) : Bool := s.vector.is_zero

/-- `Add<Point2DF> for LineSegmentF`: `self.0 + point.0.xyxy()`. -/
def addPt (s : LineSegmentF) (p : Point2DF) : LineSegmentF :=
  ⟨s.v + F32x4.xyxy ⟨p.x, p.y, 0, 0⟩⟩

/-- `LineSegmentF::offset(distance)`.  `Point2DF::normalize` lives outside
`src/`; the spec only requires it at the boundary (§6), so the offset is
stated for an arbitrary interpretation `normalizeModel` of it. -/
def offset (normalizeModel : Point2DF → Point2DF) (s : LineSegmentF)
    (distance : ℚ) : LineSegmentF :=
  if s.is_zero_length then s
  else s.addPt ((normalizeModel s.vector.yx).scale_xy (Point2DF.new (-distance) distance))

end LineSegmentF

/-- An IEEE-754-style scalar: a finite value, a signed infinity, or NaN.
Used to state what the unguarded divisions in `solve_t_for_x/y` produce on
a vertical/horizontal segment. -/
inductive FVal where
  | finite (q : ℚ)
  | pinf
  | ninf
  | nan
deriving DecidableEq, Repr

/-- IEEE-754 division restricted to exact finite operands: a nonzero divisor
gives the exact quotient; a nonzero numerator over the zero produced by
`a - a` (which is `+0`) gives the correspondingly signed infinity; `0 / 0`
is NaN. -/
def ieeeDiv (n d : ℚ) : FVal :=
  if d ≠ 0 then FVal.finite (n / d)
  else if 0 < n then FVal.pinf
  else if n < 0 then FVal.ninf
  else FVal.nan

namespace LineSegmentF

/-- `LineSegmentF::solve_t_for_x` with its division read under IEEE-754
semantics instead of totalized rational division: exactly
`(x - from_x) / (to_x - from_x)`, still with no guard on the divisor. -/
def solve_t_for_x_ieee (s : LineSegmentF) (x : ℚ) : FVal :=
  ieeeDiv (x - s.from_x) (s.to_x - s.from_x)

/-- `LineSegmentF::solve_t_for_y` with its division read under IEEE-754
semantics: exactly `(y - from_y) / (to_y - from_y)`, no guard. -/
def solve_t_for_y_ieee (s : LineSegmentF) (y : ℚ) : FVal :=
  ieeeDiv (y - s.from_y) (s.to_y - s.from_y)

end LineSegmentF

namespace Point2DF

/-- Point subtraction written out. -/
theorem sub_def (a b : Point2DF) : a - b = ⟨a.x - b.x, a.y - b.y⟩ := rfl

/-- Point addition written out. -/
theorem add_def (a b : Point2DF) : a + b = ⟨a.x + b.x, a.y + b.y⟩ := rfl

/-- Point negation written out. -/
theorem neg_def (a : Point2DF) : -a = ⟨-a.x, -a.y⟩ := rfl

end Point2DF

namespace LineSegmentF

/-- `split` written out lane by lane. -/
theorem split_eq_mk (s : LineSegmentF) (t : ℚ) :
    s.split t =
      (⟨⟨s.v.x, s.v.y, s.v.x + (s.v.z - s.v.x) * t, s.v.y + (s.v.w - s.v.y) * t⟩⟩,
       ⟨⟨s.v.x + (s.v.z - s.v.x) * t, s.v.y + (s.v.w - s.v.y) * t, s.v.z, s.v.w⟩⟩) := rfl

/-- `split_at_y` unfolded to its ordering comparison. -/
theorem split_at_y_def (s : LineSegmentF) (y : ℚ) :
    s.split_at_y y =
      if (s.split (s.solve_t_for_y y)).1.from_y < (s.split (s.solve_t_for_y y)).2.to_y
        then ((s.split (s.solve_t_for_y y)).1, (s.split (s.solve_t_for_y y)).2)
        else ((s.split (s.solve_t_for_y y)).2, (s.split (s.solve_t_for_y y)).1) := rfl

/-- `split_at_x` unfolded to its ordering comparison. -/
theorem split_at_x_def (s : LineSegmentF) (x : ℚ) :
    s.split_at_x x =
      if (s.split (s.solve_t_for_x x)).1.from_x < (s.split (s.solve_t_for_x x)).2.from_x
        then ((s.split (s.solve_t_for_x x)).1, (s.split (s.solve_t_for_x x)).2)
        else ((s.split (s.solve_t_for_x x)).2, (s.split (s.solve_t_for_x x)).1) := rfl

/-- On a non-horizontal segment the split point of `split_at_y` has
y-coordinate exactly `y` (exact arithmetic). -/
theorem mid_solve_y (s : LineSegmentF) (y : ℚ) (h : s.from_y ≠ s.to_y) :
    s.v.y + (s.v.w - s.v.y) * s.solve_t_for_y y = y := by
  have hd : s.v.w - s.v.y ≠ 0 := sub_ne_zero.mpr (Ne.symm h)
  rw [solve_t_for_y]
  show s.v.y + (s.v.w - s.v.y) * ((y - s.v.y) / (s.v.w - s.v.y)) = y
  rw [mul_div_assoc', mul_comm, mul_div_assoc, div_self hd, mul_one, add_sub_cancel]

end LineSegmentF

/-- C7: `reversed` swaps the two endpoints and is an involution:
`s.reversed().reversed() == s` for every segment `s`. -/
theorem reversed_reversed (s : LineSegmentF) : s.reversed.reversed = s := rfl

/-- C1: for every segment whose y-coordinates ascend or descend
(`from_y ≠ to_y`) and every `y`, `split_at_y` orders the two pieces by the
exact asymmetric comparison `min_part.from_y() < max_part.to_y()`, and the
piece returned first is the upper one (both its y-coordinates are bounded by
the second piece's), including when one of the pieces is zero-length
(`y` equal to an endpoint's y-coordinate). -/
theorem split_at_y_orders_upper_first (s : LineSegmentF) (y : ℚ)
    (h : s.from_y ≠ s.to_y) :
    (s.split_at_y y =
      if (s.split (s.solve_t_for_y y)).1.from_y < (s.split (s.solve_t_for_y y)).2.to_y
        then ((s.split (s.solve_t_for_y y)).1, (s.split (s.solve_t_for_y y)).2)
        else ((s.split (s.solve_t_for_y y)).2, (s.split (s.solve_t_for_y y)).1)) ∧
    (s.split_at_y y).1.min_y ≤ (s.split_at_y y).2.min_y ∧
    (s.split_at_y y).1.max_y ≤ (s.split_at_y y).2.max_y := by
  refine ⟨rfl, ?_⟩
  rw [LineSegmentF.split_at_y_def, LineSegmentF.split_eq_mk]
  simp only [LineSegmentF.from_y, LineSegmentF.to_y, LineSegmentF.min_y,
    LineSegmentF.max_y, LineSegmentF.from_x, LineSegmentF.to_x]
  rw [LineSegmentF.mid_solve_y s y h]
  by_cases hlt : s.v.y < s.v.w
  · simp only [if_pos hlt]
    exact ⟨le_min (min_le_right _ _) ((min_le_left _ _).trans hlt.le),
      max_le (hlt.le.trans (le_max_right _ _)) (le_max_left _ _)⟩
  · have hgt : s.v.w < s.v.y := lt_of_le_of_ne (not_lt.mp hlt) (Ne.symm h)
    simp only [if_neg hlt]
    exact ⟨le_min ((min_le_right _ _).trans hgt.le) (min_le_left _ _),
      max_le (le_max_right _ _) (hgt.le.trans (le_max_left _ _))⟩

/-- Witness for C1 at `s = ((0,0),(4,4))`, `y = 2` (the spec's §8 scenario). -/
theorem split_at_y_orders_upper_first_witness :
    ((LineSegmentF.new (Point2DF.new 0 0) (Point2DF.new 4 4)).split_at_y 2).1.min_y ≤
      ((LineSegmentF.new (Point2DF.new 0 0) (Point2DF.new 4 4)).split_at_y 2).2.min_y :=
  (split_at_y_orders_upper_first (LineSegmentF.new (Point2DF.new 0 0) (Point2DF.new 4 4)) 2
    (by norm_num [LineSegmentF.from_y, LineSegmentF.to_y, LineSegmentF.new,
      Point2DF.new])).2.1

/-- C3: for `t ∈ [0,1]`, `split(t) = (l, r)` keeps the outer endpoints and
both pieces share the interpolated midpoint exactly:
`l.from = s.from`, `r.to = s.to`, `l.to = r.from = from + (to - from) * t`. -/
theorem split_shares_midpoint (s : LineSegmentF) (t : ℚ)
    (h0 : 0 ≤ t) (h1 : t ≤ 1) :
    (s.split t).1.fromPt = s.fromPt ∧ (s.split t).2.toPt = s.toPt ∧
    (s.split t).1.toPt = (s.split t).2.fromPt ∧
    (s.split t).1.toPt = s.fromPt + (s.toPt - s.fromPt).scale t :=
  ⟨rfl, rfl, rfl, rfl⟩

/-- Witness for C3 at `s = ((0,0),(4,4))`, `t = 1/2`. -/
theorem split_shares_midpoint_witness :
    ((LineSegmentF.new (Point2DF.new 0 0) (Point2DF.new 4 4)).split (1 / 2)).1.toPt =
      ((LineSegmentF.new (Point2DF.new 0 0) (Point2DF.new 4 4)).split (1 / 2)).2.fromPt :=
  (split_shares_midpoint (LineSegmentF.new (Point2DF.new 0 0) (Point2DF.new 4 4)) (1 / 2)
    (by norm_num) (by norm_num)).2.2.1

/-- C4 counterexample: on the horizontal segment `((0,0),(1,0))` the
difference `to.y - from.y` is zero (non-negative), yet `y_winding` returns
`-1`, not the claimed `+1`. -/
theorem y_winding_zero_counterexample :
    0 ≤ (LineSegmentF.new (Point2DF.new 0 0) (Point2DF.new 1 0)).to_y -
        (LineSegmentF.new (Point2DF.new 0 0) (Point2DF.new 1 0)).from_y ∧
    (LineSegmentF.new (Point2DF.new 0 0) (Point2DF.new 1 0)).y_winding = -1 := by
  constructor
  · norm_num [LineSegmentF.new, Point2DF.new, LineSegmentF.from_y, LineSegmentF.to_y]
  · norm_num [LineSegmentF.new, Point2DF.new, LineSegmentF.y_winding,
      LineSegmentF.from_y, LineSegmentF.to_y]

/-- C4 (amended): the winding is determined purely by the sign of
`to.y - from.y`: positive gives `+1`, non-positive (including zero) gives
`-1`. -/
theorem y_winding_sign (s : LineSegmentF) :
    s.y_winding = if 0 < s.to_y - s.from_y then 1 else -1 := by
  simp [LineSegmentF.y_winding, sub_pos]

/-- C5: `y_winding` is `+1` exactly when `from_y < to_y` (strict), `-1`
otherwise; equal y-coordinates give `-1`, and no other value occurs. -/
theorem y_winding_strict (s : LineSegmentF) :
    s.y_winding = (if s.from_y < s.to_y then 1 else -1) ∧
    (s.from_y = s.to_y → s.y_winding = -1) ∧
    (s.y_winding = 1 ∨ s.y_winding = -1) := by
  refine ⟨rfl, ?_, ?_⟩
  · intro heq
    simp [LineSegmentF.y_winding, heq]
  · rw [LineSegmentF.y_winding]
    split <;> simp

/-- Witness for C5 on a horizontal segment: equal y's give winding `-1`. -/
theorem y_winding_strict_witness :
    (LineSegmentF.new (Point2DF.new 0 0) (Point2DF.new 1 0)).y_winding = -1 :=
  (y_winding_strict (LineSegmentF.new (Point2DF.new 0 0) (Point2DF.new 1 0))).2.1 rfl

/-- C9: `set_from`/`set_to` replace one endpoint leaving the other untouched,
and each per-axis setter writes exactly one lane, preserving the other
three. -/
theorem setters_change_one_lane (s : LineSegmentF) (p : Point2DF) (x y : ℚ) :
    ((s.set_from p).to_x = s.to_x ∧ (s.set_from p).to_y = s.to_y ∧
      (s.set_from p).from_x = p.x ∧ (s.set_from p).from_y = p.y) ∧
    ((s.set_to p).from_x = s.from_x ∧ (s.set_to p).from_y = s.from_y ∧
      (s.set_to p).to_x = p.x ∧ (s.set_to p).to_y = p.y) ∧
    ((s.set_from_x x).from_x = x ∧ (s.set_from_x x).from_y = s.from_y ∧
      (s.set_from_x x).to_x = s.to_x ∧ (s.set_from_x x).to_y = s.to_y) ∧
    ((s.set_from_y y).from_y = y ∧ (s.set_from_y y).from_x = s.from_x ∧
      (s.set_from_y y).to_x = s.to_x ∧ (s.set_from_y y).to_y = s.to_y) ∧
    ((s.set_to_x x).to_x = x ∧ (s.set_to_x x).from_x = s.from_x ∧
      (s.set_to_x x).from_y = s.from_y ∧ (s.set_to_x x).to_y = s.to_y) ∧
    ((s.set_to_y y).to_y = y ∧ (s.set_to_y y).from_x = s.from_x ∧
      (s.set_to_y y).from_y = s.from_y ∧ (s.set_to_y y).to_x = s.to_x) :=
  ⟨⟨rfl, rfl, rfl, rfl⟩, ⟨rfl, rfl, rfl, rfl⟩, ⟨rfl, rfl, rfl, rfl⟩,
    ⟨rfl, rfl, rfl, rfl⟩, ⟨rfl, rfl, rfl, rfl⟩, ⟨rfl, rfl, rfl, rfl⟩⟩

/-- C10: `split_at_x` orders its pieces by the strict symmetric comparison
`min_part.from_x() < max_part.from_x()` (no zero-length tie-break), so
splitting a non-vertical segment at its own `from_x` returns the full piece
(containing the original `to` endpoint) first and the zero-length piece
second. -/
theorem split_at_x_at_from_x (s : LineSegmentF) (h : s.from_x ≠ s.to_x) :
    (∀ x : ℚ, s.split_at_x x =
      if (s.split (s.solve_t_for_x x)).1.from_x < (s.split (s.solve_t_for_x x)).2.from_x
        then ((s.split (s.solve_t_for_x x)).1, (s.split (s.solve_t_for_x x)).2)
        else ((s.split (s.solve_t_for_x x)).2, (s.split (s.solve_t_for_x x)).1)) ∧
    (s.split_at_x s.from_x).1 = s ∧
    (s.split_at_x s.from_x).2 = LineSegmentF.new s.fromPt s.fromPt := by
  refine ⟨fun _ => rfl, ?_⟩
  have ht : s.solve_t_for_x s.from_x = 0 := by
    rw [LineSegmentF.solve_t_for_x, sub_self, zero_div]
  rw [LineSegmentF.split_at_x_def, ht, LineSegmentF.split_eq_mk]
  simp [LineSegmentF.from_x, mul_zero, add_zero, LineSegmentF.new, LineSegmentF.fromPt]

/-- Witness for C10 at `s = ((1,2),(5,7))`, split at `x = 1`. -/
theorem split_at_x_at_from_x_witness :
    ((LineSegmentF.new (Point2DF.new 1 2) (Point2DF.new 5 7)).split_at_x 1).1 =
      LineSegmentF.new (Point2DF.new 1 2) (Point2DF.new 5 7) :=
  (split_at_x_at_from_x (LineSegmentF.new (Point2DF.new 1 2) (Point2DF.new 5 7))
    (by norm_num [LineSegmentF.from_x, LineSegmentF.to_x, LineSegmentF.new,
      Point2DF.new])).2.1

/-- C8: `offset(d)` on a zero-length segment (where `to - from` is exactly
the zero vector) returns the segment unchanged, for any distance `d` and any
interpretation of the external `normalize`. -/
theorem offset_zero_length (normalizeModel : Point2DF → Point2DF)
    (s : LineSegmentF) (d : ℚ) (h : s.is_zero_length = true) :
    LineSegmentF.offset normalizeModel s d = s := by
  rw [LineSegmentF.offset, if_pos h]

/-- Witness for C8 on the degenerate segment `((1,2),(1,2))`, `d = 5`. -/
theorem offset_zero_length_witness :
    LineSegmentF.offset id (LineSegmentF.new (Point2DF.new 1 2) (Point2DF.new 1 2)) 5 =
      LineSegmentF.new (Point2DF.new 1 2) (Point2DF.new 1 2) :=
  offset_zero_length id (LineSegmentF.new (Point2DF.new 1 2) (Point2DF.new 1 2)) 5
    (by norm_num [LineSegmentF.is_zero_length, LineSegmentF.vector, LineSegmentF.toPt,
      LineSegmentF.fromPt, LineSegmentF.new, Point2DF.new, Point2DF.sub_def,
      Point2DF.is_zero, F32x4.zwxy])

/-- C6: `solve_t_for_x(x)` is exactly the unguarded quotient
`(x - from_x) / (to_x - from_x)` under IEEE-754 division semantics (and
symmetrically for y): with a nonzero divisor it is the finite rational-model
value with no clamping, and on a vertical (resp. horizontal) segment queried
off `from`'s coordinate it is a signed infinity. -/
theorem solve_t_ieee_spec (s : LineSegmentF) (x y : ℚ) :
    (s.solve_t_for_x_ieee x = ieeeDiv (x - s.from_x) (s.to_x - s.from_x)) ∧
    (s.to_x - s.from_x ≠ 0 →
      s.solve_t_for_x_ieee x = FVal.finite (s.solve_t_for_x x)) ∧
    (s.to_x - s.from_x = 0 → x ≠ s.from_x →
      s.solve_t_for_x_ieee x = FVal.pinf ∨ s.solve_t_for_x_ieee x = FVal.ninf) ∧
    (s.solve_t_for_y_ieee y = ieeeDiv (y - s.from_y) (s.to_y - s.from_y)) ∧
    (s.to_y - s.from_y ≠ 0 →
      s.solve_t_for_y_ieee y = FVal.finite (s.solve_t_for_y y)) ∧
    (s.to_y - s.from_y = 0 → y ≠ s.from_y →
      s.solve_t_for_y_ieee y = FVal.pinf ∨ s.solve_t_for_y_ieee y = FVal.ninf) := by
  refine ⟨rfl, ?_, ?_, rfl, ?_, ?_⟩
  · intro hd
    simp [LineSegmentF.solve_t_for_x_ieee, ieeeDiv, hd, LineSegmentF.solve_t_for_x]
  · intro hd hx
    rcases (sub_ne_zero.mpr hx).lt_or_lt with hneg | hpos
    · right
      simp [LineSegmentF.solve_t_for_x_ieee, ieeeDiv, hd, hneg, asymm hneg]
    · left
      simp [LineSegmentF.solve_t_for_x_ieee, ieeeDiv, hd, hpos]
  · intro hd
    simp [LineSegmentF.solve_t_for_y_ieee, ieeeDiv, hd, LineSegmentF.solve_t_for_y]
  · intro hd hy
    rcases (sub_ne_zero.mpr hy).lt_or_lt with hneg | hpos
    · right
      simp [LineSegmentF.solve_t_for_y_ieee, ieeeDiv, hd, hneg, asymm hneg]
    · left
      simp [LineSegmentF.solve_t_for_y_ieee, ieeeDiv, hd, hpos]

/-- Witness for C6 on the vertical segment `((1,0),(1,5))` queried at
`x = 3`: the divisor is zero and the result is a signed infinity. -/
theorem solve_t_ieee_spec_witness :
    (LineSegmentF.new (Point2DF.new 1 0) (Point2DF.new 1 5)).solve_t_for_x_ieee 3 =
        FVal.pinf ∨
      (LineSegmentF.new (Point2DF.new 1 0) (Point2DF.new 1 5)).solve_t_for_x_ieee 3 =
        FVal.ninf :=
  (solve_t_ieee_spec (LineSegmentF.new (Point2DF.new 1 0) (Point2DF.new 1 5)) 3 0).2.2.1
    (by norm_num [LineSegmentF.to_x, LineSegmentF.from_x, LineSegmentF.new, Point2DF.new])
    (by norm_num [LineSegmentF.from_x, LineSegmentF.new, Point2DF.new])

/-- C2: `intersection_t(other)` returns `None` exactly when the absolute
determinant of the matrix with columns `other.vector()` and `-self.vector()`
is below `0.0001`; otherwise it returns the `y`-component of that matrix's
inverse applied to `self.from() - other.from()`, the unclamped intersection
parameter along `self`: sampling `self` there lands on `other`'s infinite
line. -/
theorem intersection_t_spec (s o : LineSegmentF) :
    (s.intersection_t o = none ↔
      |(LineSegmentF.intersectionMatrix s o).det| < 1 / 10000) ∧
    (¬ |(LineSegmentF.intersectionMatrix s o).det| < 1 / 10000 →
      s.intersection_t o =
        some (((LineSegmentF.intersectionMatrix s o).inverse.transform_point
          (s.fromPt - o.fromPt)).y)) ∧
    (∀ t : ℚ, s.intersection_t o = some t →
      o.line_coords.x * (s.sample t).x + o.line_coords.y * (s.sample t).y +
        o.line_coords.z = 0) := by
  refine ⟨?_, ?_, ?_⟩
  · constructor
    · intro hn
      by_contra hd
      simp only [LineSegmentF.intersection_t, if_neg hd] at hn
      exact Option.some_ne_none _ hn
    · intro hd
      simp only [LineSegmentF.intersection_t, if_pos hd]
  · intro hd
    simp only [LineSegmentF.intersection_t, if_neg hd]
  · intro t ht
    simp only [LineSegmentF.intersection_t] at ht
    rw [ite_eq_iff] at ht
    rcases ht with ⟨_, habs⟩ | ⟨hc, heq⟩
    · exact absurd habs (Option.noConfusion)
    · have hdet : (LineSegmentF.intersectionMatrix s o).det ≠ 0 := by
        intro h0
        rw [h0] at hc
        norm_num at hc
      have heq' : ((LineSegmentF.intersectionMatrix s o).inverse.transform_point
          (s.fromPt - o.fromPt)).y = t := Option.some.inj heq
      obtain ⟨⟨sa, sb, sc, sd⟩⟩ := s
      obtain ⟨⟨oa, ob, oc, od⟩⟩ := o
      simp only [LineSegmentF.intersectionMatrix, LineSegmentF.vector,
        LineSegmentF.toPt, LineSegmentF.fromPt, LineSegmentF.line_coords,
        LineSegmentF.sample, F32x4.zwxy, F32x4.concat_xy_xy, F32x4.cross,
        Matrix2x2F.det, Matrix2x2F.inverse, Matrix2x2F.transform_point,
        Point2DF.sub_def, Point2DF.add_def, Point2DF.neg_def,
        Point2DF.scale] at hdet heq' ⊢
      have hDT : ((oc - oa) * -(sd - sb) - -(sc - sa) * (od - ob)) * t =
          -(od - ob) * (sa - oa) + (oc - oa) * (sb - ob) := by
        rw [← heq']
        field_simp
        exact mul_div_cancel_left₀ _ (fun h => hdet (by linear_combination h))
      linear_combination -hDT

/-- Witness for C2 on the spec's §8 example: `s = ((0,0),(2,2))`,
`other = ((0,2),(2,0))` have determinant `-8`, so an intersection parameter
is returned. -/
theorem intersection_t_spec_witness :
    (LineSegmentF.new (Point2DF.new 0 0) (Point2DF.new 2 2)).intersection_t
        (LineSegmentF.new (Point2DF.new 0 2) (Point2DF.new 2 0)) =
      some (((LineSegmentF.intersectionMatrix
            (LineSegmentF.new (Point2DF.new 0 0) (Point2DF.new 2 2))
            (LineSegmentF.new (Point2DF.new 0 2) (Point2DF.new 2 0))).inverse.transform_point
          ((LineSegmentF.new (Point2DF.new 0 0) (Point2DF.new 2 2)).fromPt -
            (LineSegmentF.new (Point2DF.new 0 2) (Point2DF.new 2 0)).fromPt)).y) :=
  (intersection_t_spec (LineSegmentF.new (Point2DF.new 0 0) (Point2DF.new 2 2))
      (LineSegmentF.new (Point2DF.new 0 2) (Point2DF.new 2 0))).2.1
    (by norm_num [LineSegmentF.intersectionMatrix, Matrix2x2F.det,
      LineSegmentF.vector, LineSegmentF.toPt, LineSegmentF.fromPt, F32x4.zwxy,
      F32x4.concat_xy_xy, Point2DF.sub_def, Point2DF.neg_def, LineSegmentF.new,
      Point2DF.new, abs_lt])
